import Mathlib

/-!
Verification of the SecureWipe free-space/disk wiping engine
(`securewipe.py`) against its natural-language specification.

The Python source is shallowly embedded: pure helpers become Lean
functions over `ℕ`/`ℤ`/`ℚ` (Python floats are modelled as exact
rationals), strings become `List Char`, fallible code returns
`Option`/`Except`, and the stateful write/pipeline loops become
explicit state-passing functions parameterised by an environment
(disk capacity, injected I/O faults, subprocess outcomes).
-/

namespace SecureWipe

/-! ## Pattern / mode selection

`wipe_free_space` (securewipe.py lines 1068-1083) and the free-space
wipe step of `format_disk` (lines 1996-2004) pick the byte pattern for
each pass.  Patterns are the fixed CLI enumeration
`all/zeroes/ones/random/ticks/haha`. -/

inductive Pat
  | all
  | random
  | zeroes
  | ones
  | ticks
  | haha
deriving DecidableEq, Repr

/-- Mode selection of `wipe_free_space` (lines 1069-1083): the explicit
if/elif chain maps each non-`all` pattern to itself; for `all`, pass 0 is
`random` and later passes use `\x7b1: 'zeroes', 2: 'ones'\x7d.get(p % 3, 'random')`. -/
def select_mode_wfs (pattern : Pat) (p : ℕ) : Pat :=
  match pattern with
  | .zeroes => .zeroes
  | .ones => .ones
  | .random => .random
  | .ticks => .ticks
  | .haha => .haha
  | .all =>
      if p = 0 then .random
      else if p % 3 = 1 then .zeroes
      else if p % 3 = 2 then .ones
      else .random

/-- Mode selection of the free-space wipe step of `format_disk`
(lines 1998-2004): `if pattern == 'all': ... else: mode = pattern`. -/
def select_mode_fmt (pattern : Pat) (p : ℕ) : Pat :=
  if pattern = .all then
    if p = 0 then .random
    else if p % 3 = 1 then .zeroes
    else if p % 3 = 2 then .ones
    else .random
  else pattern

/-! ## TimeEstimator

`estimate_write_speed` (lines 709-729) and `estimate_operation_time`
(lines 773-825).  The benchmark helper `benchmark_write_speed` is
commented out in the source, so the benchmarking branch of
`estimate_operation_time` always raises `NameError`, which is caught by
its `except Exception` clause; the heuristic speed is therefore used in
every call, i.e. no benchmark measurement is ever available. -/

inductive OSKind
  | darwin
  | linux
  | windows
  | other
deriving DecidableEq

/-- Model of `estimate_write_speed` (lines 709-729): conservative per-platform
write-speed constants in bytes per second. -/
def estimate_write_speed (system : OSKind) : ℚ :=
  match system with
  | .darwin => 200 * 1024 * 1024
  | .linux => 100 * 1024 * 1024
  | .windows => 80 * 1024 * 1024
  | .other => 50 * 1024 * 1024

structure TimeEstimate where
  estimated_seconds : ℚ
  estimated_speed : ℚ
  completion_time : ℚ
  data_size : ℚ
  passes : ℕ

/-- Model of `estimate_operation_time` (lines 773-825), no-benchmark path (the
only reachable path, see above).  `now` is the value of `time.time()`
at the call. -/
def estimate_operation_time (system : OSKind) (now : ℚ) (data_size : ℚ)
    (passes : ℕ) : TimeEstimate :=
  let estimated_speed := estimate_write_speed system
  let base_time := data_size / estimated_speed
  let pass_overhead : ℚ := 2
  let total_time := base_time * passes + pass_overhead * passes
  let fs_overhead := min 30 (total_time * (1 / 10))
  let total_time' := total_time + fs_overhead
  let completion_time := now + total_time'
  ⟨total_time', estimated_speed, completion_time, data_size, passes⟩

/-! ## Block generation

Chunk construction inside the write loops: `wipe_free_space`
lines 1123-1136 and the `format_disk` wipe step lines 2055-2062.
`os.urandom(k)` returns exactly `k` fresh bytes; it is modelled as `k`
draws from an entropy stream `rnd`. -/

def urandomBytes (rnd : ℕ → ℕ) (k : ℕ) : List ℕ :=
  (List.range k).map rnd

/-- The bytes of `b'3===D'`. -/
def ticksBytes : List ℕ := [0x33, 0x3D, 0x3D, 0x3D, 0x44]

/-- The bytes of `b'haha-'`. -/
def hahaBytes : List ℕ := [0x68, 0x61, 0x68, 0x61, 0x2D]

/-- Python `bytes * reps` tiling. -/
def tileBytes (patBytes : List ℕ) (reps : ℕ) : List ℕ :=
  List.flatten (List.replicate reps patBytes)

/-- Chunk generation of `wipe_free_space` (lines 1123-1136):
`random` draws `block_size` fresh bytes, `ones`/`zeroes` are constant
blocks, `ticks`/`haha` tile a 5-byte motif
`(pattern_bytes * (block_size // len(pattern_bytes) + 1))[:block_size]`.
The final `else` of the source chain is `zeroes`. -/
def gen_chunk_wfs (rnd : ℕ → ℕ) (mode : Pat) (block_size : ℕ) : List ℕ :=
  match mode with
  | .random => urandomBytes rnd block_size
  | .ones => List.replicate block_size 0xFF
  | .ticks => (tileBytes ticksBytes (block_size / ticksBytes.length + 1)).take block_size
  | .haha => (tileBytes hahaBytes (block_size / hahaBytes.length + 1)).take block_size
  | _ => List.replicate block_size 0x00

/-- Chunk generation of the `format_disk` wipe step (lines 2055-2062):
only `random`/`ones`/`zeroes` are distinguished; the final `else`
("Should never happen") draws random bytes. -/
def gen_chunk_fmt (rnd : ℕ → ℕ) (mode : Pat) (block_size : ℕ) : List ℕ :=
  match mode with
  | .random => urandomBytes rnd block_size
  | .ones => List.replicate block_size 0xFF
  | .zeroes => List.replicate block_size 0x00
  | _ => urandomBytes rnd block_size

/-! ## The single-pass write loop

One pass of the free-space wipe: `wipe_free_space` lines 1120-1204 and
the `format_disk` wipe step lines 2052-2147.  The loop writes one
block per iteration and accumulates `written += block_size`; it only
terminates when a write raises `OSError`.  The environment supplies
the number of free bytes available to the temp file (writing beyond it
raises `ENOSPC`) and an optional injected `OSError` errno per write
call (modelling permission errors, `EFBIG`, I/O faults, ...). -/

def ENOSPC : ℕ := 28

def EFBIG : ℕ := 27

def EIO : ℕ := 5

/-- The `while True` write loop body, fuel-indexed.  `j` is the index of
the next `f.write` call and `written` the accumulated counter.  A write
raises the injected errno if one is scheduled for this call, otherwise
succeeds exactly when `written + bs` bytes still fit in the free space.
Returns `(written, errno, write_calls)` at the terminating `OSError`,
or `none` if the fuel is exhausted first. -/
def passLoop (fault : ℕ → Option ℕ) (cap bs : ℕ) :
    ℕ → ℕ → ℕ → Option (ℕ × ℕ × ℕ)
  | 0, _, _ => none
  | fuel + 1, j, written =>
      match fault j with
      | some e => some (written, e, j + 1)
      | none =>
          if written + bs ≤ cap then passLoop fault cap bs fuel (j + 1) (written + bs)
          else some (written, ENOSPC, j + 1)

/-- One pass's write loop run from `written = 0` with enough fuel for a
positive block size (at most `cap / bs` writes can succeed). -/
def runPassLoop (fault : ℕ → Option ℕ) (cap bs : ℕ) : Option (ℕ × ℕ × ℕ) :=
  passLoop fault cap bs (cap / bs + 1) 0 0

/-- Observable outcome of one `wipe_free_space` pass. -/
structure PassOutcome where
  written : ℕ
  errno : ℕ
  /-- an `Error: ...` line was printed to stderr -/
  errorLine : Bool
  /-- the `✓ Pass p+1 complete` line was printed -/
  passComplete : Bool
  /-- an exception escaped the pass to the caller -/
  surfacedFailure : Bool
deriving DecidableEq, Repr

/-- The `try/except OSError/finally` of one `wipe_free_space` pass
(lines 1179-1204): the `except` prints an error line exactly when the
errno is neither `ENOSPC` nor `EFBIG`, then falls through (`pass`);
control always reaches the `✓ Pass p+1 complete` print at line 1204 and
no exception propagates to the caller. -/
def wfs_pass_outcome (fault : ℕ → Option ℕ) (cap bs : ℕ) : Option PassOutcome :=
  (runPassLoop fault cap bs).map fun r =>
    ⟨r.1, r.2.1, !(r.2.1 = ENOSPC || r.2.1 = EFBIG), true, false⟩

/-- The inner `try/except OSError` of one `format_disk` wipe pass
(lines 2105-2111): `ENOSPC` breaks silently; any other errno (including
`EFBIG`) prints an error line and breaks.  Control always reaches the
`✓ Pass p+1 complete` print at line 2146. -/
def fmt_pass_outcome (fault : ℕ → Option ℕ) (cap bs : ℕ) : Option PassOutcome :=
  (runPassLoop fault cap bs).map fun r =>
    ⟨r.1, r.2.1, !(r.2.1 = ENOSPC), true, false⟩

end SecureWipe

namespace SecureWipe

section PassLoopLemmas

theorem passLoop_isSome (fault : ℕ → Option ℕ) (cap bs : ℕ) (hbs : 0 < bs) :
    ∀ fuel j written, (cap - written) / bs + 1 ≤ fuel →
      (passLoop fault cap bs fuel j written).isSome := by
  intro fuel
  induction fuel with
  | zero => intro j written h2; exact (Nat.not_succ_le_zero _ h2).elim
  | succ n ih =>
      intro j written h2
      rw [passLoop]
      cases fault j with
      | some e => rfl
      | none =>
          simp only
          split
          · rename_i hle
            refine ih (j + 1) (written + bs) ?_
            have hx : cap - written = (cap - (written + bs)) + bs := by omega
            have hdiv : (cap - written) / bs = (cap - (written + bs)) / bs + 1 := by
              rw [hx, Nat.add_div_right _ hbs]
            omega
          · rfl

theorem runPassLoop_isSome (fault : ℕ → Option ℕ) (cap bs : ℕ) (hbs : 0 < bs) :
    (runPassLoop fault cap bs).isSome := by
  refine passLoop_isSome fault cap bs hbs _ 0 0 ?_
  simp

theorem passLoop_written_dvd (fault : ℕ → Option ℕ) (cap bs : ℕ) :
    ∀ fuel j written, bs ∣ written →
      ∀ w e calls, passLoop fault cap bs fuel j written = some (w, e, calls) →
        bs ∣ w := by
  intro fuel
  induction fuel with
  | zero => intro j written _ w e calls h; simp [passLoop] at h
  | succ n ih =>
      intro j written hdvd w e calls h
      rw [passLoop] at h
      cases hf : fault j with
      | some e' =>
          rw [hf] at h
          simp only [Option.some.injEq, Prod.mk.injEq] at h
          obtain ⟨h1, -, -⟩ := h
          exact h1 ▸ hdvd
      | none =>
          rw [hf] at h
          simp only at h
          split at h
          · exact ih (j + 1) (written + bs) (Dvd.dvd.add hdvd dvd_rfl) w e calls h
          · simp only [Option.some.injEq, Prod.mk.injEq] at h
            obtain ⟨h1, -, -⟩ := h
            exact h1 ▸ hdvd

end PassLoopLemmas

/-- C9: every chunk written by either wipe loop has exactly
`block_size` bytes in every mode, and the `written` counter — which
increases by exactly `block_size` at each successful write — is a
multiple of `block_size` whenever a pass terminates. -/
theorem chunks_are_block_sized :
    ∀ (rnd : ℕ → ℕ) (mode : Pat) (bs : ℕ) (fault : ℕ → Option ℕ) (cap : ℕ),
      (gen_chunk_wfs rnd mode bs).length = bs ∧
      (gen_chunk_fmt rnd mode bs).length = bs ∧
      (∀ w e calls, runPassLoop fault cap bs = some (w, e, calls) → bs ∣ w) := by
  intro rnd mode bs fault cap
  refine ⟨?_, ?_, ?_⟩
  · cases mode <;>
      simp [gen_chunk_wfs, urandomBytes, tileBytes, ticksBytes, hahaBytes] <;> omega
  · cases mode <;> simp [gen_chunk_fmt, urandomBytes]
  · intro w e calls h
    exact passLoop_written_dvd fault cap bs _ 0 0 (dvd_zero bs) w e calls h

/-- C9 witness: a concrete terminated pass (capacity 25, block size 10,
no injected faults) has a block-size-divisible `written`, and concrete
chunks have exactly `block_size` bytes. -/
theorem chunks_are_block_sized_witness :
    (gen_chunk_wfs (fun _ => 0) .ticks 12).length = 12 ∧
    (gen_chunk_fmt (fun _ => 0) .haha 12).length = 12 ∧
    (10 : ℕ) ∣ 20 := by
  have h := chunks_are_block_sized (fun _ => 0) .ticks 12 (fun _ => none) 25
  have h' := chunks_are_block_sized (fun _ => 0) .haha 12 (fun _ => none) 25
  refine ⟨h.1, h'.2.1, ?_⟩
  have h2 := chunks_are_block_sized (fun _ => 0) .ticks 10 (fun _ => none) 25
  exact h2.2.2 20 ENOSPC 3 (by decide)

/-- C3 counterexample: the claim says an `OSError` with an errno other
than `ENOSPC`/`EFBIG` "aborts the pass and surfaces to the caller as a
failure (distinct from pass completion)".  In `wipe_free_space` an
injected `EIO` on the first write still yields a pass reported complete
(`passComplete = true`) with no failure surfacing
(`surfacedFailure = false`); and in `format_disk`'s wipe step `EFBIG`
is *not* treated as an expected terminator: it prints an error line. -/
theorem oserror_pass_counterexample :
    wfs_pass_outcome (fun j => if j = 0 then some EIO else none) 100 10 =
      some ⟨0, EIO, true, true, false⟩ ∧
    fmt_pass_outcome (fun j => if j = 0 then some EFBIG else none) 100 10 =
      some ⟨0, EFBIG, true, true, false⟩ := by
  constructor <;> rfl

/-- C3 amended: in `wipe_free_space` an `OSError` with errno `ENOSPC` or
`EFBIG` ends the pass silently and the pass is reported complete; any
other errno also ends the pass and the pass is *still* reported
complete — an `Error:` line is printed to stderr but no failure
surfaces to the caller.  In `format_disk`'s wipe step only `ENOSPC` is
silent (any other errno, `EFBIG` included, prints the error line), and
there too the pass is always reported complete. -/
theorem oserror_ends_pass_as_complete (fault : ℕ → Option ℕ) (cap bs : ℕ)
    (hbs : 0 < bs) :
    (wfs_pass_outcome fault cap bs).isSome = true ∧
    (fmt_pass_outcome fault cap bs).isSome = true ∧
    (∀ o, wfs_pass_outcome fault cap bs = some o →
      o.passComplete = true ∧ o.surfacedFailure = false ∧
      (o.errorLine = true ↔ ¬(o.errno = ENOSPC ∨ o.errno = EFBIG))) ∧
    (∀ o, fmt_pass_outcome fault cap bs = some o →
      o.passComplete = true ∧ o.surfacedFailure = false ∧
      (o.errorLine = true ↔ o.errno ≠ ENOSPC)) := by
  have hrun := runPassLoop_isSome fault cap bs hbs
  refine ⟨?_, ?_, ?_, ?_⟩
  · simpa [wfs_pass_outcome] using hrun
  · simpa [fmt_pass_outcome] using hrun
  · intro o ho
    rw [wfs_pass_outcome, Option.map_eq_some'] at ho
    obtain ⟨r, -, hr⟩ := ho
    subst hr
    refine ⟨rfl, rfl, ?_⟩
    simp
  · intro o ho
    rw [fmt_pass_outcome, Option.map_eq_some'] at ho
    obtain ⟨r, -, hr⟩ := ho
    subst hr
    refine ⟨rfl, rfl, ?_⟩
    simp

/-- C3 witness: the amended theorem applied at a concrete pass (no
injected fault, capacity 0, block size 1): the pass ends in `ENOSPC`,
prints no error line and is reported complete. -/
theorem oserror_ends_pass_as_complete_witness :
    (⟨0, ENOSPC, false, true, false⟩ : PassOutcome).passComplete = true ∧
    (⟨0, ENOSPC, false, true, false⟩ : PassOutcome).surfacedFailure = false ∧
    ((⟨0, ENOSPC, false, true, false⟩ : PassOutcome).errorLine = true ↔
      ¬((⟨0, ENOSPC, false, true, false⟩ : PassOutcome).errno = ENOSPC ∨
        (⟨0, ENOSPC, false, true, false⟩ : PassOutcome).errno = EFBIG)) :=
  (oserror_ends_pass_as_complete (fun _ => none) 0 1 (by decide)).2.2.1 _ (by rfl)

/-! ## The full `wipe_free_space` run

Event-level model of `wipe_free_space` from the free-space re-query at
lines 995-997 through the pass loop (lines 1068-1213) and the summary
box (lines 1219-1229).  `WEvent.noFreeSpaceReport` is a claim-side
constructor (spec §8 scenario "no free space to wipe"); the source
contains no such message and the model never emits it. -/

inductive WEvent
  | noFreeSpaceReport
  | statusBox (free_space : ℕ)
  | passStart (p : ℕ) (mode : Pat)
  | writeAttempt (p j : ℕ)
  | errorLine (p e : ℕ)
  | passComplete (p wiped : ℕ)
  | wipingComplete (total : ℕ)
deriving DecidableEq, Repr

/-- Lines 995-997: if the free space obtained from drive selection /
path search is 0, call `get_free_space` once more and use its result. -/
def wfs_free_space (fs0 requery : ℕ) : ℕ :=
  if fs0 = 0 then requery else fs0

/-- The events of pass `p` of `wipe_free_space` (lines 1068-1213):
pass banner, one event per `f.write` call, the stderr error line for an
unexpected errno, and the completion line reporting
`min written free_space` wiped bytes.  The temp file can absorb exactly
the volume's free bytes. -/
def wfs_pass_events (fault : ℕ → Option ℕ) (free_space bs p : ℕ)
    (pattern : Pat) : List WEvent × ℕ :=
  match runPassLoop fault free_space bs with
  | none => ([], 0)
  | some (w, e, calls) =>
      (WEvent.passStart p (select_mode_wfs pattern p) ::
        (((List.range calls).map fun j => WEvent.writeAttempt p j) ++
          (if e = ENOSPC ∨ e = EFBIG then [] else [WEvent.errorLine p e]) ++
          [WEvent.passComplete p (min w free_space)]),
        w)

/-- The `wipe_free_space` run from line 995 on: re-query, status box,
`passes` passes, and the summary reporting
`min (written * passes) free_space` where `written` is the last pass's
counter (line 1226).  (For `passes = 0` the source would raise
`NameError` at line 1226; the claims only concern `passes ≥ 1`.) -/
def wfs_last_written (fault : ℕ → ℕ → Option ℕ) (fs0 requery passes bs : ℕ)
    (pattern : Pat) : ℕ :=
  if passes = 0 then 0
  else (wfs_pass_events (fault (passes - 1)) (wfs_free_space fs0 requery) bs
    (passes - 1) pattern).2

def wipe_free_space_run (fault : ℕ → ℕ → Option ℕ) (fs0 requery passes bs : ℕ)
    (pattern : Pat) : List WEvent :=
  WEvent.statusBox (wfs_free_space fs0 requery) ::
    ((List.range passes).map fun p =>
      (wfs_pass_events (fault p) (wfs_free_space fs0 requery) bs p pattern).1).flatten ++
    [WEvent.wipingComplete
      (min (wfs_last_written fault fs0 requery passes bs pattern * passes)
        (wfs_free_space fs0 requery))]

theorem runPassLoop_cap_zero (fault : ℕ → Option ℕ) (bs : ℕ) (hbs : 0 < bs) :
    runPassLoop fault 0 bs = some (0, (fault 0).getD ENOSPC, 1) := by
  rw [runPassLoop, Nat.zero_div, passLoop]
  cases fault 0 with
  | some e => rfl
  | none => simp; omega

theorem wfs_pass_events_cap_zero (fault : ℕ → Option ℕ) (bs p : ℕ)
    (pattern : Pat) (hbs : 0 < bs) :
    wfs_pass_events fault 0 bs p pattern =
      (WEvent.passStart p (select_mode_wfs pattern p) ::
        ([WEvent.writeAttempt p 0] ++
          (if (fault 0).getD ENOSPC = ENOSPC ∨ (fault 0).getD ENOSPC = EFBIG
            then [] else [WEvent.errorLine p ((fault 0).getD ENOSPC)]) ++
          [WEvent.passComplete p 0]), 0) := by
  rw [wfs_pass_events, runPassLoop_cap_zero fault bs hbs]
  rfl

/-- C4 counterexample: with 0 bytes of free space (both the initial and
the re-queried value) and the default `passes = 3`, `block 1 MiB`,
pattern `all`, the `wipe_free_space` run emits no "no free space to
wipe" report, and it does not return before attempting writes: the
first pass makes a write call. -/
theorem zero_free_space_counterexample :
    WEvent.noFreeSpaceReport ∉
      wipe_free_space_run (fun _ _ => none) 0 0 3 1048576 .all ∧
    WEvent.writeAttempt 0 0 ∈
      wipe_free_space_run (fun _ _ => none) 0 0 3 1048576 .all ∧
    WEvent.passComplete 0 0 ∈
      wipe_free_space_run (fun _ _ => none) 0 0 3 1048576 .all := by
  refine ⟨?_, ?_, ?_⟩ <;> decide

/-- C4 amended: `wipe_free_space` on a path with 0 bytes free prints no
"no free space to wipe" report (no such message exists in the source);
it re-queries the free space once and proceeds into the pass loop,
where every pass attempts a write, terminates at the resulting
out-of-space (or injected) error with `written = 0`, and is reported
complete with 0 bytes wiped. -/
theorem zero_free_space_behavior (fault : ℕ → ℕ → Option ℕ) (passes bs : ℕ)
    (pattern : Pat) (hbs : 0 < bs) (_hp : 0 < passes) :
    WEvent.noFreeSpaceReport ∉ wipe_free_space_run fault 0 0 passes bs pattern ∧
    (∀ p, p < passes →
      WEvent.passComplete p 0 ∈ wipe_free_space_run fault 0 0 passes bs pattern ∧
      WEvent.writeAttempt p 0 ∈ wipe_free_space_run fault 0 0 passes bs pattern) ∧
    (∀ p w, WEvent.passComplete p w ∈ wipe_free_space_run fault 0 0 passes bs pattern →
      w = 0) := by
  have hshape : ∀ p, (wfs_pass_events (fault p) (wfs_free_space 0 0) bs p pattern).1 =
      WEvent.passStart p (select_mode_wfs pattern p) ::
        ([WEvent.writeAttempt p 0] ++
          (if (fault p 0).getD ENOSPC = ENOSPC ∨ (fault p 0).getD ENOSPC = EFBIG
            then [] else [WEvent.errorLine p ((fault p 0).getD ENOSPC)]) ++
          [WEvent.passComplete p 0]) := by
    intro p
    rw [show wfs_free_space 0 0 = 0 from rfl,
      wfs_pass_events_cap_zero (fault p) bs p pattern hbs]
  refine ⟨?_, ?_, ?_⟩
  · intro hmem
    rw [wipe_free_space_run] at hmem
    rcases List.mem_cons.mp hmem with h | hmem
    · simp at h
    rcases List.mem_append.mp hmem with hj | hlast
    · obtain ⟨l, hl, hin⟩ := List.mem_flatten.mp hj
      obtain ⟨p, -, rfl⟩ := List.mem_map.mp hl
      rw [hshape p] at hin
      rcases List.mem_cons.mp hin with h | hin
      · simp at h
      rcases List.mem_append.mp hin with h2 | h3
      · rcases List.mem_append.mp h2 with ha | hb
        · simp at ha
        · revert hb; split <;> simp
      · simp at h3
    · simp at hlast
  · intro p hppasses
    constructor <;>
    · rw [wipe_free_space_run]
      refine List.mem_cons_of_mem _ (List.mem_append_left _ ?_)
      refine List.mem_flatten.mpr ⟨_, List.mem_map.mpr ⟨p, List.mem_range.mpr hppasses, rfl⟩, ?_⟩
      rw [hshape p]
      simp
  · intro p w hmem
    rw [wipe_free_space_run] at hmem
    rcases List.mem_cons.mp hmem with h | hmem
    · simp at h
    rcases List.mem_append.mp hmem with hj | hlast
    · obtain ⟨l, hl, hin⟩ := List.mem_flatten.mp hj
      obtain ⟨q, -, rfl⟩ := List.mem_map.mp hl
      rw [hshape q] at hin
      rcases List.mem_cons.mp hin with h | hin
      · simp at h
      rcases List.mem_append.mp hin with h2 | h3
      · rcases List.mem_append.mp h2 with ha | hb
        · simp at ha
        · revert hb; split <;> simp
      · simp only [List.mem_singleton, WEvent.passComplete.injEq] at h3
        exact h3.2
    · simp at hlast

/-- C4 witness: the amended behaviour at the concrete defaults
(`passes = 3`, 1 MiB blocks, no injected faults). -/
theorem zero_free_space_behavior_witness :
    WEvent.noFreeSpaceReport ∉
      wipe_free_space_run (fun _ _ => none) 0 0 3 1048576 .zeroes ∧
    WEvent.passComplete 2 0 ∈
      wipe_free_space_run (fun _ _ => none) 0 0 3 1048576 .zeroes :=
  ⟨(zero_free_space_behavior (fun _ _ => none) 3 1048576 .zeroes (by decide)
      (by decide)).1,
    ((zero_free_space_behavior (fun _ _ => none) 3 1048576 .zeroes (by decide)
      (by decide)).2.1 2 (by decide)).1⟩

/-! ## SizeUnits: `format_size` and `parse_size`

`format_size` (lines 101-109) and `parse_size` (lines 114-144).
Strings are embedded as `List Char`; Python floats as exact rationals
(`f"\x7bnum:.2f\x7d"` formatting becomes round-to-nearest at two decimals).
`parse_size`'s regex `([0-9,.]+)\s*([A-Za-z]+)` is anchored at the
start and its three character classes are disjoint, so the match — when
it exists — takes the maximal leading `[0-9,.]` run, skips whitespace,
and takes the maximal letter run.  `float(...)` on the digits-and-dots
group can raise `ValueError` (this call is *outside* the `try`), which
the embedding returns as `Except.error`. -/

def isNumChar (c : Char) : Bool :=
  c.isDigit || c = ',' || c = '.'

def isPySpaceChar (c : Char) : Bool :=
  c = ' ' || c = '\t' || c = '\n' || c = '\r' || c = '\x0b' || c = '\x0c'

def isAsciiLetterChar (c : Char) : Bool :=
  ('A' ≤ c && c ≤ 'Z') || ('a' ≤ c && c ≤ 'z')

def digitVal (c : Char) : ℕ := c.toNat - 48

/-- Value of a digit string, most significant first. -/
def natFromDigits (l : List Char) : ℕ :=
  l.foldl (fun a c => a * 10 + digitVal c) 0

/-- Python `re.match(r'([0-9,.]+)\s*([A-Za-z]+)', s)`: the two capture
groups, or `none` when the pattern does not match at the start. -/
def matchNumUnit (s : List Char) : Option (List Char × List Char) :=
  let g1 := s.takeWhile isNumChar
  if g1.isEmpty then none
  else
    let rest := (s.drop g1.length).dropWhile isPySpaceChar
    let g2 := rest.takeWhile isAsciiLetterChar
    if g2.isEmpty then none else some (g1, g2)

/-- Python `float(str)` restricted to the characters `[0-9.]` that can
reach it here: digits with at most one dot and at least one digit.
(Underscore digit separators cannot occur: `_` matches neither regex
class.) -/
def pyFloat (s : List Char) : Option ℚ :=
  let ip := s.takeWhile Char.isDigit
  match s.drop ip.length with
  | [] => if ip.isEmpty then none else some (natFromDigits ip : ℚ)
  | c :: fp =>
      if c = '.' && fp.all Char.isDigit && !(ip.isEmpty && fp.isEmpty) then
        some ((natFromDigits ip : ℚ) + (natFromDigits fp : ℚ) / 10 ^ fp.length)
      else none

/-- Python `int(str)`: optional surrounding whitespace, optional sign,
then decimal digits. -/
def pyIntOfChars (s : List Char) : Option ℤ :=
  let t := ((s.dropWhile isPySpaceChar).reverse.dropWhile isPySpaceChar).reverse
  match t with
  | '-' :: ds =>
      if !ds.isEmpty && ds.all Char.isDigit then some (-(natFromDigits ds : ℤ)) else none
  | '+' :: ds =>
      if !ds.isEmpty && ds.all Char.isDigit then some (natFromDigits ds : ℤ) else none
  | ds =>
      if !ds.isEmpty && ds.all Char.isDigit then some (natFromDigits ds : ℤ) else none

/-- Python `int(float)`: truncation toward zero. -/
def pyTrunc (q : ℚ) : ℤ :=
  if q < 0 then -⌊-q⌋ else ⌊q⌋

def unknownChars : List Char := ['U', 'n', 'k', 'n', 'o', 'w', 'n']

inductive PyErr
  | valueError
deriving DecidableEq, Repr

/-- The unit `elif` chain of `parse_size` (lines 131-144), applied to
the parsed value and the upper-cased unit group. -/
def unitBranch (v : ℚ) (unit : List Char) : Except PyErr ℤ :=
  if unit = ['B'] then .ok (pyTrunc v)
  else if unit = ['K', 'B'] || unit = ['K'] then .ok (pyTrunc (v * 1024))
  else if unit = ['M', 'B'] || unit = ['M'] then .ok (pyTrunc (v * 1024 ^ 2))
  else if unit = ['G', 'B'] || unit = ['G'] then .ok (pyTrunc (v * 1024 ^ 3))
  else if unit = ['T', 'B'] || unit = ['T'] then .ok (pyTrunc (v * 1024 ^ 4))
  else if unit = ['P', 'B'] || unit = ['P'] then .ok (pyTrunc (v * 1024 ^ 5))
  else .ok 0

/-- Model of `parse_size` (lines 114-144).  The argument is `none` for Python
`None`.  `float(value)` on the comma-stripped first group is outside
the `try`, so its `ValueError` escapes (`Except.error`); the `int(...)`
fallback for non-matching strings is inside a bare `except` returning
0. -/
def parse_size (s : Option (List Char)) : Except PyErr ℤ :=
  match s with
  | none => .ok 0
  | some str =>
      if str.isEmpty || str = unknownChars then .ok 0
      else
        match matchNumUnit str with
        | none =>
            match pyIntOfChars str with
            | some i => .ok i
            | none => .ok 0
        | some (g1, g2) =>
            match pyFloat (g1.filter (fun c => c ≠ ',')) with
            | none => .error .valueError
            | some v => unitBranch v (g2.map Char.toUpper)

def digitChar : ℕ → Char
  | 0 => '0'
  | 1 => '1'
  | 2 => '2'
  | 3 => '3'
  | 4 => '4'
  | 5 => '5'
  | 6 => '6'
  | 7 => '7'
  | 8 => '8'
  | 9 => '9'
  | _ => '*'

def natToCharsAux (n : ℕ) (acc : List Char) : List Char :=
  if n < 10 then digitChar n :: acc
  else natToCharsAux (n / 10) (digitChar (n % 10) :: acc)
termination_by n
decreasing_by exact Nat.div_lt_self (by omega) (by omega)

/-- Decimal rendering of a natural number, as Python prints it. -/
def natToChars (n : ℕ) : List Char :=
  natToCharsAux n []

/-- Exactly two zero-padded digits, for `b < 100`. -/
def twoDigitChars (b : ℕ) : List Char :=
  [digitChar (b / 10), digitChar (b % 10)]

/-- Python `f"\x7bnum:.2f\x7d"` for a non-negative value: round to the nearest
hundredth and render with exactly two fraction digits.  (The source
formats a binary float, whose half-way ties break to even; ties are
immaterial to every stated tolerance.) -/
def fixed2Chars (q : ℚ) : List Char :=
  natToChars ((round (q * 100)).toNat / 100) ++
    '.' :: twoDigitChars ((round (q * 100)).toNat % 100)

def unitsList : List (List Char) :=
  [['B'], ['K', 'B'], ['M', 'B'], ['G', 'B'], ['T', 'B']]

/-- The unit loop of `format_size` (lines 105-109): emit at the first
unit where the running value is below 1024, dividing by 1024 otherwise;
after `TB` the fallthrough emits `PB`. -/
def fmtGo : ℚ → List (List Char) → List Char
  | v, [] => fixed2Chars v ++ ['P', 'B']
  | v, u :: us => if v < 1024 then fixed2Chars v ++ u else fmtGo (v / 1024) us

/-- Model of `format_size` (lines 101-109): `None` and `0` render as
`"Unknown"`. -/
def format_size (num : Option ℕ) : List Char :=
  match num with
  | none => unknownChars
  | some n => if n = 0 then unknownChars else fmtGo (n : ℚ) unitsList

/-- The 0-based index of the binary unit `format_size` displays `n`
with (0 = B, 1 = KB, ..., 5 = PB); one unit-rounding step of the
two-decimal rendering is `0.01 * 1024 ^ sizeUnitIdx n` bytes. -/
def sizeUnitIdx (n : ℕ) : ℕ :=
  if n < 1024 then 0
  else if n < 1024 ^ 2 then 1
  else if n < 1024 ^ 3 then 2
  else if n < 1024 ^ 4 then 3
  else if n < 1024 ^ 5 then 4
  else 5

section SizeLemmas

theorem pyFloat_nonneg (l : List Char) (v : ℚ) (h : pyFloat l = some v) :
    0 ≤ v := by
  rw [pyFloat] at h
  split at h
  · split at h
    · exact Option.noConfusion h
    · injection h with h'
      subst h'
      positivity
  · split at h
    · injection h with h'
      subst h'
      positivity
    · exact Option.noConfusion h

theorem pyTrunc_nonneg (q : ℚ) (h : 0 ≤ q) : 0 ≤ pyTrunc q := by
  rw [pyTrunc, if_neg (by linarith)]
  exact Int.floor_nonneg.mpr h

theorem pyTrunc_of_nonneg (q : ℚ) (h : 0 ≤ q) : pyTrunc q = ⌊q⌋ := by
  rw [pyTrunc, if_neg (by linarith)]

theorem unitBranch_nonneg (v : ℚ) (hv : 0 ≤ v) (unit : List Char) :
    ∀ r, unitBranch v unit = .ok r → 0 ≤ r := by
  intro r h
  rw [unitBranch] at h
  split at h
  · cases Except.ok.inj h
    exact pyTrunc_nonneg _ hv
  split at h
  · cases Except.ok.inj h
    exact pyTrunc_nonneg _ (by positivity)
  split at h
  · cases Except.ok.inj h
    exact pyTrunc_nonneg _ (by positivity)
  split at h
  · cases Except.ok.inj h
    exact pyTrunc_nonneg _ (by positivity)
  split at h
  · cases Except.ok.inj h
    exact pyTrunc_nonneg _ (by positivity)
  split at h
  · cases Except.ok.inj h
    exact pyTrunc_nonneg _ (by positivity)
  · cases Except.ok.inj h
    exact le_refl 0

theorem unitBranch_ne_error (v : ℚ) (unit : List Char) (e : PyErr) :
    unitBranch v unit ≠ .error e := by
  rw [unitBranch]
  split
  · simp
  split
  · simp
  split
  · simp
  split
  · simp
  split
  · simp
  split
  · simp
  · simp

end SizeLemmas

section RoundTripLemmas

theorem digitChar_isDigit (n : ℕ) (h : n < 10) : (digitChar n).isDigit = true := by
  interval_cases n <;> decide

theorem digitVal_digitChar (n : ℕ) (h : n < 10) : digitVal (digitChar n) = n := by
  interval_cases n <;> decide

theorem natToCharsAux_append (n : ℕ) :
    ∀ acc : List Char, natToCharsAux n acc = natToCharsAux n [] ++ acc := by
  induction n using Nat.strong_induction_on with
  | _ n ih =>
      intro acc
      by_cases h : n < 10
      · rw [natToCharsAux, if_pos h, natToCharsAux, if_pos h]
        rfl
      · rw [natToCharsAux, if_neg h]
        conv_rhs => rw [natToCharsAux, if_neg h]
        have hlt : n / 10 < n := Nat.div_lt_self (by omega) (by omega)
        rw [ih (n / 10) hlt (digitChar (n % 10) :: acc),
          ih (n / 10) hlt [digitChar (n % 10)]]
        simp

theorem natToChars_eq_of_ge (n : ℕ) (h : ¬n < 10) :
    natToChars n = natToChars (n / 10) ++ [digitChar (n % 10)] := by
  rw [natToChars, natToCharsAux, if_neg h, natToCharsAux_append, natToChars]

theorem natToChars_digits (n : ℕ) : ∀ c ∈ natToChars n, c.isDigit = true := by
  induction n using Nat.strong_induction_on with
  | _ n ih =>
      intro c hc
      by_cases h : n < 10
      · rw [natToChars, natToCharsAux, if_pos h] at hc
        rcases List.mem_singleton.mp hc with rfl
        exact digitChar_isDigit n h
      · rw [natToChars_eq_of_ge n h] at hc
        rcases List.mem_append.mp hc with hc | hc
        · exact ih (n / 10) (Nat.div_lt_self (by omega) (by omega)) c hc
        · rcases List.mem_singleton.mp hc with rfl
          exact digitChar_isDigit _ (Nat.mod_lt _ (by omega))

theorem natToChars_ne_nil (n : ℕ) : natToChars n ≠ [] := by
  by_cases h : n < 10
  · rw [natToChars, natToCharsAux, if_pos h]
    simp
  · rw [natToChars_eq_of_ge n h]
    simp

theorem natFromDigits_from (l : List Char) :
    ∀ a : ℕ, l.foldl (fun x c => x * 10 + digitVal c) a =
      a * 10 ^ l.length + natFromDigits l := by
  induction l with
  | nil => intro a; simp [natFromDigits]
  | cons c t ih =>
      intro a
      rw [List.foldl_cons, ih (a * 10 + digitVal c)]
      have h0 : natFromDigits (c :: t) = digitVal c * 10 ^ t.length + natFromDigits t := by
        rw [natFromDigits, List.foldl_cons, ih (0 * 10 + digitVal c)]
        ring_nf
      rw [h0]
      simp [List.length_cons]
      ring

theorem natFromDigits_append (l1 l2 : List Char) :
    natFromDigits (l1 ++ l2) =
      natFromDigits l1 * 10 ^ l2.length + natFromDigits l2 := by
  rw [natFromDigits, List.foldl_append, ← natFromDigits, natFromDigits_from]

theorem natFromDigits_natToChars (n : ℕ) :
    natFromDigits (natToChars n) = n := by
  induction n using Nat.strong_induction_on with
  | _ n ih =>
      by_cases h : n < 10
      · rw [natToChars, natToCharsAux, if_pos h]
        rw [natFromDigits, List.foldl_cons]
        simp [digitVal_digitChar n h, natFromDigits]
      · rw [natToChars_eq_of_ge n h, natFromDigits_append,
          ih (n / 10) (Nat.div_lt_self (by omega) (by omega))]
        rw [natFromDigits, List.foldl_cons]
        simp [digitVal_digitChar _ (Nat.mod_lt n (by omega))]
        omega

theorem natFromDigits_twoDigit (b : ℕ) (hb : b < 100) :
    natFromDigits (twoDigitChars b) = b := by
  rw [twoDigitChars, natFromDigits, List.foldl_cons, List.foldl_cons]
  rw [digitVal_digitChar (b / 10) (by omega), digitVal_digitChar (b % 10) (by omega)]
  simp [List.foldl_nil]
  omega

theorem twoDigit_digits (b : ℕ) (hb : b < 100) :
    ∀ c ∈ twoDigitChars b, c.isDigit = true := by
  intro c hc
  rw [twoDigitChars] at hc
  rcases List.mem_cons.mp hc with rfl | hc
  · exact digitChar_isDigit _ (by omega)
  · rcases List.mem_singleton.mp hc with rfl
    exact digitChar_isDigit _ (Nat.mod_lt _ (by omega))

theorem takeWhile_append_of (p : Char → Bool) :
    ∀ l1 l2 : List Char, (∀ c ∈ l1, p c = true) →
      (∀ c, l2.head? = some c → p c = false) →
      (l1 ++ l2).takeWhile p = l1 := by
  intro l1
  induction l1 with
  | nil =>
      intro l2 _ h2
      cases l2 with
      | nil => rfl
      | cons c t => simp [List.takeWhile_cons, h2 c rfl]
  | cons a t ih =>
      intro l2 h1 h2
      rw [List.cons_append, List.takeWhile_cons, h1 a (List.mem_cons_self a t),
        ih l2 (fun c hc => h1 c (List.mem_cons_of_mem a hc)) h2]
      simp

theorem dropWhile_head_false (p : Char → Bool) (l : List Char)
    (h : ∀ c, l.head? = some c → p c = false) : l.dropWhile p = l := by
  cases l with
  | nil => rfl
  | cons c t => simp [List.dropWhile_cons, h c rfl]

theorem fixed2Chars_chars (q : ℚ) :
    ∀ c ∈ fixed2Chars q, isNumChar c = true ∧ ¬c = ',' := by
  intro c hc
  rw [fixed2Chars] at hc
  have hdig : c.isDigit = true ∨ c = '.' := by
    rcases List.mem_append.mp hc with h | h
    · exact Or.inl (natToChars_digits _ c h)
    · rcases List.mem_cons.mp h with rfl | h
      · exact Or.inr rfl
      · exact Or.inl (twoDigit_digits _ (Nat.mod_lt _ (by omega)) c h)
  rcases hdig with h | rfl
  · constructor
    · rw [isNumChar, h]
      rfl
    · intro hcomma
      subst hcomma
      exact absurd h (by decide)
  · exact ⟨by decide, by decide⟩

theorem fixed2Chars_head_digit (q : ℚ) :
    ∀ c, (fixed2Chars q).head? = some c → c.isDigit = true := by
  intro c hc
  rw [fixed2Chars] at hc
  cases hnat : natToChars ((round (q * 100)).toNat / 100) with
  | nil => exact absurd hnat (natToChars_ne_nil _)
  | cons a t =>
      rw [hnat, List.cons_append, List.head?_cons] at hc
      cases hc
      exact natToChars_digits _ c (by rw [hnat]; exact List.mem_cons_self c t)

/-- Python `float` applied to the rendered two-decimal string recovers the
rounded value exactly. -/
theorem pyFloat_fixed2Chars (q : ℚ) :
    pyFloat (fixed2Chars q) = some (((round (q * 100)).toNat : ℚ) / 100) := by
  have hmodlt : (round (q * 100)).toNat % 100 < 100 := Nat.mod_lt _ (by omega)
  have htake : (fixed2Chars q).takeWhile Char.isDigit =
      natToChars ((round (q * 100)).toNat / 100) := by
    rw [fixed2Chars]
    exact takeWhile_append_of Char.isDigit _ _ (natToChars_digits _)
      (by intro c hc; cases hc; decide)
  have hdrop : (fixed2Chars q).drop
      (natToChars ((round (q * 100)).toNat / 100)).length =
      '.' :: twoDigitChars ((round (q * 100)).toNat % 100) := by
    rw [fixed2Chars, List.drop_left]
  rw [pyFloat, htake, hdrop]
  simp only
  have hall : (twoDigitChars ((round (q * 100)).toNat % 100)).all Char.isDigit = true :=
    List.all_eq_true.mpr (twoDigit_digits _ hmodlt)
  have hne : (twoDigitChars ((round (q * 100)).toNat % 100)).isEmpty = false := rfl
  rw [if_pos (by simp [hall, hne])]
  rw [natFromDigits_natToChars, natFromDigits_twoDigit _ hmodlt]
  congr 1
  have hlen : (twoDigitChars ((round (q * 100)).toNat % 100)).length = 2 := rfl
  rw [hlen]
  have hmod : ((round (q * 100)).toNat : ℚ) =
      100 * (((round (q * 100)).toNat / 100 : ℕ) : ℚ) +
        (((round (q * 100)).toNat % 100 : ℕ) : ℚ) := by
    exact_mod_cast congrArg (fun k : ℕ => (k : ℚ)) (Nat.div_add_mod _ 100).symm
  rw [hmod]
  ring

theorem fixed2Chars_ne_nil (q : ℚ) : fixed2Chars q ≠ [] := by
  rw [fixed2Chars]
  intro h
  exact natToChars_ne_nil _ (List.append_eq_nil.mp h).1

/-- Parsing the rendered size string: when the unit suffix is a pure
letter run, `parse_size` reaches the unit chain on the exactly
recovered rounded value. -/
theorem parse_fixed2_unit (q : ℚ) (u : List Char)
    (hu_num : ∀ c, u.head? = some c → isNumChar c = false)
    (hu_sp : ∀ c, u.head? = some c → isPySpaceChar c = false)
    (hu_take : u.takeWhile isAsciiLetterChar = u)
    (hu_ne : u ≠ []) (res : Except PyErr ℤ)
    (hbranch : unitBranch (((round (q * 100)).toNat : ℚ) / 100) (u.map Char.toUpper) = res) :
    parse_size (some (fixed2Chars q ++ u)) = res := by
  have hsnil : fixed2Chars q ++ u ≠ [] := fun h =>
    fixed2Chars_ne_nil q (List.append_eq_nil.mp h).1
  have hsne : fixed2Chars q ++ u ≠ unknownChars := by
    cases hfx : fixed2Chars q with
    | nil => exact absurd hfx (fixed2Chars_ne_nil q)
    | cons a t =>
        intro h
        have ha : a.isDigit = true := fixed2Chars_head_digit q a (by rw [hfx]; rfl)
        rw [List.cons_append] at h
        injection h with h1 h2
        rw [h1] at ha
        exact absurd ha (by decide)
  have hguard :
      ¬((fixed2Chars q ++ u).isEmpty || decide ((fixed2Chars q ++ u) = unknownChars)) = true := by
    simp [List.isEmpty_iff, hsne, hsnil]
  have hg1 : (fixed2Chars q ++ u).takeWhile isNumChar = fixed2Chars q :=
    takeWhile_append_of isNumChar (fixed2Chars q) u
      (fun c hc => (fixed2Chars_chars q c hc).1) hu_num
  have hg1ne : (fixed2Chars q).isEmpty = false := by
    cases hfx : fixed2Chars q with
    | nil => exact absurd hfx (fixed2Chars_ne_nil q)
    | cons a t => rfl
  have hdropw : u.dropWhile isPySpaceChar = u := dropWhile_head_false _ u hu_sp
  have hune : u.isEmpty = false := by
    cases u with
    | nil => exact absurd rfl hu_ne
    | cons a t => rfl
  have hmatch : matchNumUnit (fixed2Chars q ++ u) = some (fixed2Chars q, u) := by
    rw [matchNumUnit]
    simp only [hg1, hg1ne, List.drop_left, hdropw, hu_take, hune]
    rfl
  have hfilter : (fixed2Chars q).filter (fun c => c ≠ ',') = fixed2Chars q :=
    List.filter_eq_self.mpr (fun c hc => by
      simpa using (fixed2Chars_chars q c hc).2)
  rw [parse_size]
  rw [if_neg hguard, hmatch]
  simp only
  rw [hfilter, pyFloat_fixed2Chars]
  exact hbranch

/-- Bytes case: formatting an integer below 1024 with two decimals is
exact, so the round trip recovers `n` itself. -/
theorem pyTrunc_roundtrip_bytes (n : ℕ) :
    pyTrunc (((round ((n : ℚ) * 100)).toNat : ℚ) / 100) = (n : ℤ) := by
  have h1 : round ((n : ℚ) * 100) = ((n * 100 : ℕ) : ℤ) := by
    have hcast : ((n : ℚ) * 100) = ((n * 100 : ℕ) : ℚ) := by push_cast; ring
    rw [hcast, round_natCast]
  rw [h1, Int.toNat_natCast]
  have h2 : (((n * 100 : ℕ) : ℚ)) / 100 = (n : ℚ) := by push_cast; field_simp
  rw [h2, pyTrunc_of_nonneg _ (by positivity), Int.floor_natCast]

/-- Larger units: rounding `n / 1024^k` to two decimals and truncating
back loses at most half a hundredth of the unit plus one byte, which is
within `0.01 * 1024^k` bytes for `k ≥ 1`. -/
theorem pyTrunc_roundtrip_bound (n k : ℕ) (hk : 1 ≤ k) :
    100 * (pyTrunc ((((round (((n : ℚ) / 1024 ^ k) * 100)).toNat : ℚ) / 100) * 1024 ^ k)
      - (n : ℤ)).natAbs ≤ 1024 ^ k := by
  have hPpos : (0 : ℚ) < 1024 ^ k := by positivity
  set x : ℚ := ((n : ℚ) / 1024 ^ k) * 100 with hxdef
  have hx0 : 0 ≤ x := by positivity
  have hR0 : 0 ≤ round x := by
    rw [round_eq]
    exact Int.floor_nonneg.mpr (by linarith)
  have hcast : (((round x).toNat : ℚ)) = ((round x : ℤ) : ℚ) := by
    exact_mod_cast congrArg (fun z : ℤ => (z : ℚ)) (Int.toNat_of_nonneg hR0)
  set v : ℚ := ((round x).toNat : ℚ) / 100 with hvdef
  have hv0 : 0 ≤ v := by positivity
  have hr : pyTrunc (v * 1024 ^ k) = ⌊v * 1024 ^ k⌋ :=
    pyTrunc_of_nonneg _ (by positivity)
  set r : ℤ := ⌊v * 1024 ^ k⌋ with hrdef
  rw [hr]
  have habs := abs_sub_round x
  have hub : ((round x : ℤ) : ℚ) ≤ x + 1 / 2 := by
    have := abs_le.mp habs
    linarith [this.1]
  have hlb : x - 1 / 2 ≤ ((round x : ℤ) : ℚ) := by
    have := abs_le.mp habs
    linarith [this.2]
  have hvP : v * 1024 ^ k = ((round x : ℤ) : ℚ) * 1024 ^ k / 100 := by
    rw [hvdef, hcast]
    ring
  have hxP : x * 1024 ^ k = 100 * (n : ℚ) := by
    rw [hxdef]
    field_simp
    ring
  have hf1 : (r : ℚ) ≤ v * 1024 ^ k := by
    rw [hrdef]
    exact Int.floor_le _
  have hf2 : v * 1024 ^ k < (r : ℚ) + 1 := by
    rw [hrdef]
    exact Int.lt_floor_add_one _
  have hup : ((round x : ℤ) : ℚ) * 1024 ^ k ≤ (x + 1 / 2) * 1024 ^ k :=
    mul_le_mul_of_nonneg_right hub hPpos.le
  have hdn : (x - 1 / 2) * 1024 ^ k ≤ ((round x : ℤ) : ℚ) * 1024 ^ k :=
    mul_le_mul_of_nonneg_right hlb hPpos.le
  have hexp1 : (x + 1 / 2) * 1024 ^ k = 100 * (n : ℚ) + 1024 ^ k / 2 := by
    rw [add_mul, hxP]
    ring
  have hexp2 : (x - 1 / 2) * 1024 ^ k = 100 * (n : ℚ) - 1024 ^ k / 2 := by
    rw [sub_mul, hxP]
    ring
  have hA : 200 * (r : ℚ) ≤ 200 * (n : ℚ) + 1024 ^ k := by
    have h1 : (r : ℚ) ≤ ((round x : ℤ) : ℚ) * 1024 ^ k / 100 := by
      rw [← hvP]; exact hf1
    have h2 : ((round x : ℤ) : ℚ) * 1024 ^ k ≤ 100 * (n : ℚ) + 1024 ^ k / 2 := by
      rw [← hexp1]; exact hup
    linarith
  have hB : 200 * (n : ℚ) < 200 * (r : ℚ) + 200 + 1024 ^ k := by
    have h1 : ((round x : ℤ) : ℚ) * 1024 ^ k / 100 < (r : ℚ) + 1 := by
      rw [← hvP]; exact hf2
    have h2 : 100 * (n : ℚ) - 1024 ^ k / 2 ≤ ((round x : ℤ) : ℚ) * 1024 ^ k := by
      rw [← hexp2]; exact hdn
    linarith
  have hcastP : ((1024 ^ k : ℕ) : ℚ) = (1024 : ℚ) ^ k := by push_cast; ring
  have hAZ : (200 : ℤ) * r ≤ 200 * (n : ℤ) + ((1024 ^ k : ℕ) : ℤ) := by
    have : (200 : ℚ) * (r : ℚ) ≤ 200 * (n : ℚ) + ((1024 ^ k : ℕ) : ℚ) := by
      rw [hcastP]; exact hA
    exact_mod_cast this
  have hBZ : (200 : ℤ) * (n : ℤ) < 200 * r + 200 + ((1024 ^ k : ℕ) : ℤ) := by
    have : (200 : ℚ) * (n : ℚ) < 200 * (r : ℚ) + 200 + ((1024 ^ k : ℕ) : ℚ) := by
      rw [hcastP]; exact hB
    exact_mod_cast this
  have hPge : (1024 : ℕ) ≤ 1024 ^ k := by
    calc (1024 : ℕ) = 1024 ^ 1 := (pow_one 1024).symm
    _ ≤ 1024 ^ k := Nat.pow_le_pow_right (by omega) hk
  omega

/-- The running value at step `j` of the `format_size` unit loop stays
at or above 1024 exactly while `n ≥ 1024^(j+1)`. -/
theorem fmt_step_not_lt (n j : ℕ) (h : 1024 ^ (j + 1) ≤ n) :
    ¬((n : ℚ) / 1024 ^ j < 1024) := by
  rw [not_lt, le_div_iff₀ (by positivity)]
  calc (1024 : ℚ) * 1024 ^ j = ((1024 ^ (j + 1) : ℕ) : ℚ) := by push_cast; ring
  _ ≤ (n : ℚ) := by exact_mod_cast h

theorem fmt_step_lt (n j : ℕ) (h : n < 1024 ^ (j + 1)) :
    (n : ℚ) / 1024 ^ j < 1024 := by
  rw [div_lt_iff₀ (by positivity)]
  calc (n : ℚ) < ((1024 ^ (j + 1) : ℕ) : ℚ) := by exact_mod_cast h
  _ = 1024 * 1024 ^ j := by push_cast; ring

end RoundTripLemmas

/-- C7: for every byte count `n`, parsing the formatted size string
recovers `n` up to one two-decimal rounding step of the displayed
binary unit: the round trip yields an integer `r` with
`|r - n| ≤ 0.01 * 1024 ^ sizeUnitIdx n`. -/
theorem parse_format_size_roundtrip (n : ℕ) :
    ∃ r : ℤ, parse_size (some (format_size (some n))) = .ok r ∧
      100 * (r - (n : ℤ)).natAbs ≤ 1024 ^ sizeUnitIdx n := by
  by_cases h0 : n = 0
  · subst h0
    refine ⟨0, rfl, ?_⟩
    simp [sizeUnitIdx]
  have hfmtsome : format_size (some n) = fmtGo (n : ℚ) unitsList := by
    rw [format_size]
    simp only [if_neg h0]
  have hBd : ∀ c : Char, (['B'] : List Char).head? = some c → isNumChar c = false := by
    intro c hc; cases hc; decide
  have hBs : ∀ c : Char, (['B'] : List Char).head? = some c → isPySpaceChar c = false := by
    intro c hc; cases hc; decide
  have hKd : ∀ c : Char, (['K', 'B'] : List Char).head? = some c → isNumChar c = false := by
    intro c hc; cases hc; decide
  have hKs : ∀ c : Char, (['K', 'B'] : List Char).head? = some c → isPySpaceChar c = false := by
    intro c hc; cases hc; decide
  have hMd : ∀ c : Char, (['M', 'B'] : List Char).head? = some c → isNumChar c = false := by
    intro c hc; cases hc; decide
  have hMs : ∀ c : Char, (['M', 'B'] : List Char).head? = some c → isPySpaceChar c = false := by
    intro c hc; cases hc; decide
  have hGd : ∀ c : Char, (['G', 'B'] : List Char).head? = some c → isNumChar c = false := by
    intro c hc; cases hc; decide
  have hGs : ∀ c : Char, (['G', 'B'] : List Char).head? = some c → isPySpaceChar c = false := by
    intro c hc; cases hc; decide
  have hTd : ∀ c : Char, (['T', 'B'] : List Char).head? = some c → isNumChar c = false := by
    intro c hc; cases hc; decide
  have hTs : ∀ c : Char, (['T', 'B'] : List Char).head? = some c → isPySpaceChar c = false := by
    intro c hc; cases hc; decide
  have hPd : ∀ c : Char, (['P', 'B'] : List Char).head? = some c → isNumChar c = false := by
    intro c hc; cases hc; decide
  have hPs : ∀ c : Char, (['P', 'B'] : List Char).head? = some c → isPySpaceChar c = false := by
    intro c hc; cases hc; decide
  by_cases h1 : n < 1024
  · -- unit B
    have hlt : ((n : ℚ)) < 1024 := by exact_mod_cast h1
    have hfmt : fmtGo (n : ℚ) unitsList = fixed2Chars ((n : ℚ)) ++ ['B'] := by
      simp only [unitsList, fmtGo]
      rw [if_pos hlt]
    refine ⟨pyTrunc (((round ((n : ℚ) * 100)).toNat : ℚ) / 100), ?_, ?_⟩
    · rw [hfmtsome, hfmt]
      exact parse_fixed2_unit ((n : ℚ)) ['B'] hBd hBs (by decide) (by decide) _
        (by simp [unitBranch])
    · rw [pyTrunc_roundtrip_bytes n, sizeUnitIdx, if_pos h1]
      simp
  by_cases h2 : n < 1024 ^ 2
  · -- unit KB
    have hge : ¬((n : ℚ) < 1024) := by
      rw [not_lt]
      exact_mod_cast Nat.not_lt.mp h1
    have hlt : (n : ℚ) / 1024 < 1024 := by
      have := fmt_step_lt n 1 (by simpa using h2)
      simpa using this
    have hfmt : fmtGo (n : ℚ) unitsList = fixed2Chars ((n : ℚ) / 1024) ++ ['K', 'B'] := by
      simp only [unitsList, fmtGo]
      rw [if_neg hge, if_pos hlt]
    refine ⟨pyTrunc ((((round (((n : ℚ) / 1024) * 100)).toNat : ℚ) / 100) * 1024), ?_, ?_⟩
    · rw [hfmtsome, hfmt]
      exact parse_fixed2_unit ((n : ℚ) / 1024) ['K', 'B'] hKd hKs (by decide) (by decide) _
        (by simp [unitBranch])
    · rw [sizeUnitIdx, if_neg h1, if_pos h2]
      have := pyTrunc_roundtrip_bound n 1 le_rfl
      simpa using this
  have hc2 : (n : ℚ) / 1024 / 1024 = (n : ℚ) / 1024 ^ 2 := by ring
  have hc3 : (n : ℚ) / 1024 / 1024 / 1024 = (n : ℚ) / 1024 ^ 3 := by ring
  have hc4 : (n : ℚ) / 1024 / 1024 / 1024 / 1024 = (n : ℚ) / 1024 ^ 4 := by ring
  have hc5 : (n : ℚ) / 1024 / 1024 / 1024 / 1024 / 1024 = (n : ℚ) / 1024 ^ 5 := by ring
  by_cases h3 : n < 1024 ^ 3
  · -- unit MB
    have hge0 : ¬((n : ℚ) < 1024) := by
      rw [not_lt]
      exact_mod_cast Nat.not_lt.mp h1
    have hge1 : ¬((n : ℚ) / 1024 < 1024) := by
      have := fmt_step_not_lt n 1 (by simpa using Nat.not_lt.mp h2)
      simpa using this
    have hlt : (n : ℚ) / 1024 / 1024 < 1024 := by
      rw [hc2]
      exact fmt_step_lt n 2 h3
    have hfmt : fmtGo (n : ℚ) unitsList =
        fixed2Chars ((n : ℚ) / 1024 ^ 2) ++ ['M', 'B'] := by
      simp only [unitsList, fmtGo]
      rw [if_neg hge0, if_neg hge1, if_pos hlt, hc2]
    refine ⟨pyTrunc ((((round (((n : ℚ) / 1024 ^ 2) * 100)).toNat : ℚ) / 100) * 1024 ^ 2),
      ?_, ?_⟩
    · rw [hfmtsome, hfmt]
      exact parse_fixed2_unit ((n : ℚ) / 1024 ^ 2) ['M', 'B'] hMd hMs (by decide) (by decide) _
        (by simp [unitBranch])
    · rw [sizeUnitIdx, if_neg h1, if_neg h2, if_pos h3]
      exact pyTrunc_roundtrip_bound n 2 (by omega)
  by_cases h4 : n < 1024 ^ 4
  · -- unit GB
    have hge0 : ¬((n : ℚ) < 1024) := by
      rw [not_lt]
      exact_mod_cast Nat.not_lt.mp h1
    have hge1 : ¬((n : ℚ) / 1024 < 1024) := by
      have := fmt_step_not_lt n 1 (by simpa using Nat.not_lt.mp h2)
      simpa using this
    have hge2 : ¬((n : ℚ) / 1024 / 1024 < 1024) := by
      rw [hc2]
      exact fmt_step_not_lt n 2 (Nat.not_lt.mp h3)
    have hlt : (n : ℚ) / 1024 / 1024 / 1024 < 1024 := by
      rw [hc3]
      exact fmt_step_lt n 3 h4
    have hfmt : fmtGo (n : ℚ) unitsList =
        fixed2Chars ((n : ℚ) / 1024 ^ 3) ++ ['G', 'B'] := by
      simp only [unitsList, fmtGo]
      rw [if_neg hge0, if_neg hge1, if_neg hge2, if_pos hlt, hc3]
    refine ⟨pyTrunc ((((round (((n : ℚ) / 1024 ^ 3) * 100)).toNat : ℚ) / 100) * 1024 ^ 3),
      ?_, ?_⟩
    · rw [hfmtsome, hfmt]
      exact parse_fixed2_unit ((n : ℚ) / 1024 ^ 3) ['G', 'B'] hGd hGs (by decide) (by decide) _
        (by simp [unitBranch])
    · rw [sizeUnitIdx, if_neg h1, if_neg h2, if_neg h3, if_pos h4]
      exact pyTrunc_roundtrip_bound n 3 (by omega)
  by_cases h5 : n < 1024 ^ 5
  · -- unit TB
    have hge0 : ¬((n : ℚ) < 1024) := by
      rw [not_lt]
      exact_mod_cast Nat.not_lt.mp h1
    have hge1 : ¬((n : ℚ) / 1024 < 1024) := by
      have := fmt_step_not_lt n 1 (by simpa using Nat.not_lt.mp h2)
      simpa using this
    have hge2 : ¬((n : ℚ) / 1024 / 1024 < 1024) := by
      rw [hc2]
      exact fmt_step_not_lt n 2 (Nat.not_lt.mp h3)
    have hge3 : ¬((n : ℚ) / 1024 / 1024 / 1024 < 1024) := by
      rw [hc3]
      exact fmt_step_not_lt n 3 (Nat.not_lt.mp h4)
    have hlt : (n : ℚ) / 1024 / 1024 / 1024 / 1024 < 1024 := by
      rw [hc4]
      exact fmt_step_lt n 4 h5
    have hfmt : fmtGo (n : ℚ) unitsList =
        fixed2Chars ((n : ℚ) / 1024 ^ 4) ++ ['T', 'B'] := by
      simp only [unitsList, fmtGo]
      rw [if_neg hge0, if_neg hge1, if_neg hge2, if_neg hge3, if_pos hlt, hc4]
    refine ⟨pyTrunc ((((round (((n : ℚ) / 1024 ^ 4) * 100)).toNat : ℚ) / 100) * 1024 ^ 4),
      ?_, ?_⟩
    · rw [hfmtsome, hfmt]
      exact parse_fixed2_unit ((n : ℚ) / 1024 ^ 4) ['T', 'B'] hTd hTs (by decide) (by decide) _
        (by simp [unitBranch])
    · rw [sizeUnitIdx, if_neg h1, if_neg h2, if_neg h3, if_neg h4, if_pos h5]
      exact pyTrunc_roundtrip_bound n 4 (by omega)
  · -- unit PB
    have hge0 : ¬((n : ℚ) < 1024) := by
      rw [not_lt]
      exact_mod_cast Nat.not_lt.mp h1
    have hge1 : ¬((n : ℚ) / 1024 < 1024) := by
      have := fmt_step_not_lt n 1 (by simpa using Nat.not_lt.mp h2)
      simpa using this
    have hge2 : ¬((n : ℚ) / 1024 / 1024 < 1024) := by
      rw [hc2]
      exact fmt_step_not_lt n 2 (Nat.not_lt.mp h3)
    have hge3 : ¬((n : ℚ) / 1024 / 1024 / 1024 < 1024) := by
      rw [hc3]
      exact fmt_step_not_lt n 3 (Nat.not_lt.mp h4)
    have hge4 : ¬((n : ℚ) / 1024 / 1024 / 1024 / 1024 < 1024) := by
      rw [hc4]
      exact fmt_step_not_lt n 4 (Nat.not_lt.mp h5)
    have hfmt : fmtGo (n : ℚ) unitsList =
        fixed2Chars ((n : ℚ) / 1024 ^ 5) ++ ['P', 'B'] := by
      simp only [unitsList, fmtGo]
      rw [if_neg hge0, if_neg hge1, if_neg hge2, if_neg hge3, if_neg hge4, hc5]
    refine ⟨pyTrunc ((((round (((n : ℚ) / 1024 ^ 5) * 100)).toNat : ℚ) / 100) * 1024 ^ 5),
      ?_, ?_⟩
    · rw [hfmtsome, hfmt]
      exact parse_fixed2_unit ((n : ℚ) / 1024 ^ 5) ['P', 'B'] hPd hPs (by decide) (by decide) _
        (by simp [unitBranch])
    · rw [sizeUnitIdx, if_neg h1, if_neg h2, if_neg h3, if_neg h4, if_neg h5]
      exact pyTrunc_roundtrip_bound n 5 (by omega)

/-- C10 counterexample: `parse_size` is not total and not non-negative:
on `"1.2.3KB"` the regex matches but `float("1.2.3")` raises an
uncaught `ValueError`, and the bare-integer fallback `int("-5")`
returns a negative value. -/
theorem parse_size_totality_counterexample :
    parse_size (some ['1', '.', '2', '.', '3', 'K', 'B']) = .error .valueError ∧
    parse_size (some ['-', '5']) = .ok (-5) := by
  constructor <;> rfl

/-- C10 amended: `format_size` returns `"Unknown"` for `None` and 0;
`parse_size` returns 0 for `None`, the empty string, `"Unknown"`, any
string matching neither the number-with-unit pattern nor a bare
integer, and any unrecognized unit suffix; for a matched
number-with-unit string the result is non-negative, and for a bare
integer string it is that integer (which may be negative).  It raises
`ValueError` exactly when the pattern matches but the comma-stripped
numeric group is not a valid float. -/
theorem size_parsing_contract :
    format_size none = unknownChars ∧
    format_size (some 0) = unknownChars ∧
    parse_size none = .ok 0 ∧
    parse_size (some []) = .ok 0 ∧
    parse_size (some unknownChars) = .ok 0 ∧
    (∀ s, matchNumUnit s = none → pyIntOfChars s = none → parse_size (some s) = .ok 0) ∧
    (∀ s i, matchNumUnit s = none → pyIntOfChars s = some i →
      parse_size (some s) = .ok i) ∧
    (∀ s g1 g2 r, matchNumUnit s = some (g1, g2) → parse_size (some s) = .ok r →
      0 ≤ r) ∧
    (∀ s, parse_size (some s) = .error .valueError ↔
      ∃ g1 g2, matchNumUnit s = some (g1, g2) ∧
        pyFloat (g1.filter (fun c => c ≠ ',')) = none) := by
  have hguard : ∀ s : List Char, (s.isEmpty || s = unknownChars) = true →
      matchNumUnit s = none ∧ pyIntOfChars s = none := by
    intro s hs
    rcases Bool.or_eq_true_iff.mp hs with h | h
    · obtain rfl : s = [] := by cases s <;> simp_all
      exact ⟨rfl, rfl⟩
    · obtain rfl : s = unknownChars := by simpa using h
      exact ⟨rfl, rfl⟩
  refine ⟨rfl, rfl, rfl, rfl, rfl, ?_, ?_, ?_, ?_⟩
  · intro s hm hi
    rw [parse_size]
    split
    · rfl
    · rw [hm, hi]
  · intro s i hm hi
    have hg : ¬(s.isEmpty || s = unknownChars) = true := by
      intro hs
      rw [(hguard s hs).2] at hi
      exact Option.noConfusion hi
    rw [parse_size]
    rw [if_neg hg, hm, hi]
  · intro s g1 g2 r hm hr
    have hg : ¬(s.isEmpty || s = unknownChars) = true := by
      intro hs
      rw [(hguard s hs).1] at hm
      exact Option.noConfusion hm
    rw [parse_size] at hr
    rw [if_neg hg, hm] at hr
    simp only at hr
    rcases hf : pyFloat (g1.filter (fun c => c ≠ ',')) with - | v <;> rw [hf] at hr
    · exact absurd hr (by simp)
    · exact unitBranch_nonneg v (pyFloat_nonneg _ v hf) _ r hr
  · intro s
    constructor
    · intro herr
      rw [parse_size] at herr
      split at herr
      · exact absurd herr (by simp)
      · rcases hm : matchNumUnit s with - | ⟨g1, g2⟩ <;> rw [hm] at herr <;>
            simp only at herr
        · rcases hi : pyIntOfChars s with - | i <;> rw [hi] at herr <;>
            exact absurd herr (by simp)
        · rcases hf : pyFloat (g1.filter (fun c => c ≠ ',')) with - | v <;>
              rw [hf] at herr
          · exact ⟨g1, g2, rfl, hf⟩
          · exact absurd herr (unitBranch_ne_error v _ _)
    · rintro ⟨g1, g2, hm, hf⟩
      have hg : ¬(s.isEmpty || s = unknownChars) = true := by
        intro hs
        rw [(hguard s hs).1] at hm
        exact Option.noConfusion hm
      rw [parse_size]
      rw [if_neg hg, hm]
      simp only
      rw [hf]

/-- C10 witness: the amended contract applied at concrete inputs: the
unmatched bare integer `"42"` parses to 42, and the matched
unknown-unit string `"5 XB"` parses to a non-negative value. -/
theorem size_parsing_contract_witness :
    parse_size (some ['4', '2']) = .ok 42 ∧ (0 : ℤ) ≤ 0 :=
  ⟨size_parsing_contract.2.2.2.2.2.2.1 ['4', '2'] 42 (by rfl) (by rfl),
    size_parsing_contract.2.2.2.2.2.2.2.1 ['5', ' ', 'X', 'B'] ['5']
      ['X', 'B'] 0 (by rfl) (by rfl)⟩

/-! ## SIGINT handling

`wipe_free_space` installs `signal_handler` (lines 1020-1036) over the
cleanup registry `temp_files` (line 1005); the `format_disk` wipe step
installs an identical handler (lines 1955-1968).  Temp files are
identified by numbers; the on-disk directory is a list of files. -/

/-- Interpreter state visible to the interrupt handler. -/
structure WipeCtx where
  /-- the cleanup registry `temp_files` -/
  temp_files : List ℕ
  /-- files currently present in the target directory -/
  disk : List ℕ
  /-- a live progress bar is referenced by `progress_bar_container` -/
  progressActive : Bool

structure HandlerResult where
  /-- no further progress-bar output can be emitted -/
  progressDisabled : Bool
  /-- files present after cleanup -/
  disk : List ℕ
  /-- the argument of the terminating `sys.exit` -/
  exitCode : ℕ

/-- Model of `cleanup_temp_files` (lines 1010-1018 / 1939-1946): for each
registered temp file, remove it if it exists. -/
def cleanup_temp_files (temp_files disk : List ℕ) : List ℕ :=
  temp_files.foldl (fun d t => if t ∈ d then d.filter (fun x => x ≠ t) else d) disk

/-- The `signal_handler` of `wipe_free_space` (lines 1020-1032): disable the
progress bar if one is live, remove every registered temp file, and
`sys.exit(130)`. -/
def signal_handler_wfs (st : WipeCtx) : HandlerResult :=
  ⟨true, cleanup_temp_files st.temp_files st.disk, 130⟩

/-- The `signal_handler` of the `format_disk` wipe step (lines 1955-1964):
identical behaviour. -/
def signal_handler_fmt (st : WipeCtx) : HandlerResult :=
  ⟨true, cleanup_temp_files st.temp_files st.disk, 130⟩

theorem cleanup_removes_registered (temp_files : List ℕ) :
    ∀ disk t, t ∈ temp_files → t ∉ cleanup_temp_files temp_files disk := by
  induction temp_files with
  | nil => intro disk t h; exact absurd h (List.not_mem_nil t)
  | cons a l ih =>
      have hstep : ∀ (d : List ℕ) (x : ℕ), x ∉ d →
          x ∉ (if x ∈ d then d.filter (fun y => y ≠ x) else d) := by
        intro d x hx
        simp [hx]
      intro disk t h
      rcases List.mem_cons.mp h with rfl | hl
      · -- after processing `t` it is gone; later removals never re-add files
        have hafter : t ∉ (if t ∈ disk then disk.filter (fun y => y ≠ t) else disk) := by
          split
          · simp [List.mem_filter]
          · assumption
        clear h
        rw [cleanup_temp_files, List.foldl_cons]
        revert hafter
        generalize (if t ∈ disk then disk.filter (fun y => y ≠ t) else disk) = d0
        intro hafter
        -- foldl never adds elements
        have : ∀ (l' : List ℕ) (d : List ℕ), t ∉ d →
            t ∉ l'.foldl (fun d' u => if u ∈ d' then d'.filter (fun y => y ≠ u) else d') d := by
          intro l'
          induction l' with
          | nil => intro d hd; exact hd
          | cons b l'' ih' =>
              intro d hd
              rw [List.foldl_cons]
              refine ih' _ ?_
              split
              · simp only [List.mem_filter, not_and]
                intro hmem
                exact absurd hmem hd
              · exact hd
        exact this l _ hafter
      · rw [cleanup_temp_files, List.foldl_cons]
        exact ih _ t hl

/-- C6: the SIGINT handlers installed during a free-space wipe (in both
`wipe_free_space` and `format_disk`) disable further progress output,
remove every temp file recorded in the cleanup registry — leaving none
of them on disk — and exit with code 130, distinct from success (0) and
fatal failure (1). -/
theorem sigint_handler_contract (st : WipeCtx) :
    (signal_handler_wfs st).progressDisabled = true ∧
    (signal_handler_fmt st).progressDisabled = true ∧
    (signal_handler_wfs st).exitCode = 130 ∧
    (signal_handler_fmt st).exitCode = 130 ∧
    (signal_handler_wfs st).exitCode ≠ 0 ∧ (signal_handler_wfs st).exitCode ≠ 1 ∧
    (∀ t, t ∈ st.temp_files → t ∉ (signal_handler_wfs st).disk) ∧
    (∀ t, t ∈ st.temp_files → t ∉ (signal_handler_fmt st).disk) := by
  refine ⟨rfl, rfl, rfl, rfl, by simp [signal_handler_wfs],
      by simp [signal_handler_wfs], ?_, ?_⟩ <;>
    exact fun t ht => cleanup_removes_registered st.temp_files st.disk t ht

/-- C6 witness: a concrete interrupted state — registry holding files 1
and 2, disk holding files 1, 2, 7 — is cleaned up to leave neither
registered file, exiting with 130. -/
theorem sigint_handler_contract_witness :
    (1 : ℕ) ∉ (signal_handler_wfs ⟨[1, 2], [1, 2, 7], true⟩).disk ∧
    (2 : ℕ) ∉ (signal_handler_fmt ⟨[1, 2], [1, 2, 7], true⟩).disk ∧
    (signal_handler_wfs ⟨[1, 2], [1, 2, 7], true⟩).exitCode = 130 :=
  ⟨(sigint_handler_contract ⟨[1, 2], [1, 2, 7], true⟩).2.2.2.2.2.2.1 1 (by decide),
    (sigint_handler_contract ⟨[1, 2], [1, 2, 7], true⟩).2.2.2.2.2.2.2 2 (by decide),
    (sigint_handler_contract ⟨[1, 2], [1, 2, 7], true⟩).2.2.1⟩

/-! ## The `format_disk` sanitization pipeline

`format_disk` (lines 1443-2199) sequences: cache flush, remapped-sector
handling, HPA/DCO check (+ removal and raw overwrite when hidden areas
are found and removed), enhanced secure erase, SMART clear, a second
cache flush, the confirmation gate, the initial format (`perform_format`,
lines 1672-1853, which calls `sys.exit(1)` on a non-zero format command
status or any exception — `SystemExit` is not caught by the outer
`except Exception` at line 2197), the free-space wipe step (run only if
a mount point is resolved, lines 1922-2177; internal exceptions are
caught), and the final reformat. -/

inductive Stage
  | cacheFlush
  | remapSectors
  | hpaCheck
  | hpaRemove
  | rawOverwrite
  | enhancedErase
  | smartClear
  | cacheFlush2
  | initialFormat
  | freeSpaceWipe
  | finalReformat
deriving DecidableEq, Repr

/-- Environment of one `format_disk` call: outcomes of the external
commands each stage invokes. -/
structure FmtEnv where
  /-- whether `check_hpa_dco` reported hidden areas (`False` also on its internal errors) -/
  hasHidden : Bool
  /-- whether `remove_hpa_dco` succeeded -/
  hpaRemoveOk : Bool
  /-- whether `no_confirm` was set or the user typed exactly `I UNDERSTAND` -/
  confirmed : Bool
  /-- the initial `perform_format` ran its format command with status 0 and no exception -/
  formatOk : Bool
  /-- whether `get_disk_mountpoint()` resolved a mount point -/
  mountFound : Bool
  /-- the final `perform_format` succeeded -/
  reformatOk : Bool

inductive ExitSt
  | completed
  | exited (code : ℕ)
deriving DecidableEq, Repr

/-- The stage trace and terminal state of `format_disk` (lines
1456-2199): preparation stages always run (each is best-effort), the
confirmation gate exits 0 on mismatch, a failed initial format exits 1
before the wipe step, the wipe step runs only when a mount point is
found, and a failed final reformat exits 1. -/
def format_disk_run (env : FmtEnv) : List Stage × ExitSt :=
  let pre := [Stage.cacheFlush, Stage.remapSectors, Stage.hpaCheck] ++
    (if env.hasHidden then
      [Stage.hpaRemove] ++ (if env.hpaRemoveOk then [Stage.rawOverwrite] else [])
    else []) ++
    [Stage.enhancedErase, Stage.smartClear, Stage.cacheFlush2]
  if !env.confirmed then (pre, .exited 0)
  else if !env.formatOk then (pre ++ [Stage.initialFormat], .exited 1)
  else
    let t2 := pre ++ [Stage.initialFormat] ++
      (if env.mountFound then [Stage.freeSpaceWipe] else []) ++ [Stage.finalReformat]
    if !env.reformatOk then (t2, .exited 1) else (t2, .completed)

/-- Boolean ordered-subsequence test, used to state "these stages run in
this order". -/
def stagesInOrder : List Stage → List Stage → Bool
  | [], _ => true
  | _ :: _, [] => false
  | a :: l1, b :: l2 =>
      if a = b then stagesInOrder l1 l2 else stagesInOrder (a :: l1) l2

/-- C2: if the initial Format stage fails, `format_disk` terminates with
exit code 1 and neither the free-space wipe stage nor the final
Reformat stage is ever executed. -/
theorem format_failure_halts_pipeline (env : FmtEnv)
    (hc : env.confirmed = true) (hf : env.formatOk = false) :
    (format_disk_run env).2 = .exited 1 ∧
    Stage.freeSpaceWipe ∉ (format_disk_run env).1 ∧
    Stage.finalReformat ∉ (format_disk_run env).1 := by
  obtain ⟨h1, h2, h3, h4, h5, h6⟩ := env
  cases hc; cases hf
  cases h1 <;> cases h2 <;> cases h5 <;> cases h6 <;> decide

/-- C2 witness: a concrete run whose initial format fails. -/
theorem format_failure_halts_pipeline_witness :
    (format_disk_run ⟨true, false, true, false, true, true⟩).2 = .exited 1 ∧
    Stage.freeSpaceWipe ∉ (format_disk_run ⟨true, false, true, false, true, true⟩).1 ∧
    Stage.finalReformat ∉ (format_disk_run ⟨true, false, true, false, true, true⟩).1 :=
  format_failure_halts_pipeline ⟨true, false, true, false, true, true⟩ rfl rfl

/-- C8: a failed HiddenAreaRemoval stage (hidden-area check reporting
nothing usable — also its error path — or a failed removal) does not
abort `format_disk`: enhanced secure erase, SMART clearing, the initial
format, the free-space wipe and the final reformat all still run, in
that order. -/
theorem hpa_failure_does_not_halt_pipeline (env : FmtEnv)
    (hhpa : env.hasHidden = false ∨ env.hpaRemoveOk = false)
    (hc : env.confirmed = true) (hf : env.formatOk = true)
    (hm : env.mountFound = true) :
    stagesInOrder
      [Stage.enhancedErase, Stage.smartClear, Stage.initialFormat,
        Stage.freeSpaceWipe, Stage.finalReformat]
      (format_disk_run env).1 = true := by
  obtain ⟨h1, h2, h3, h4, h5, h6⟩ := env
  cases hc; cases hf; cases hm
  rcases hhpa with h | h <;> cases h <;> cases h6 <;>
    first
      | decide
      | (cases h1 <;> decide)
      | (cases h2 <;> decide)

/-- C8 witness: a concrete run where hidden areas were found but their
removal failed; the remaining stages still run in order. -/
theorem hpa_failure_does_not_halt_pipeline_witness :
    stagesInOrder
      [Stage.enhancedErase, Stage.smartClear, Stage.initialFormat,
        Stage.freeSpaceWipe, Stage.finalReformat]
      (format_disk_run ⟨true, false, true, true, true, true⟩).1 = true :=
  hpa_failure_does_not_halt_pipeline ⟨true, false, true, true, true, true⟩
    (Or.inr rfl) rfl rfl rfl

/-- C1: in `wipe_free_space` and in the free-space wipe step of
`format_disk`, pattern `all` uses `random` for `p % 3 = 0` (hence for
pass 0), `zeroes` for `p % 3 = 1`, `ones` for `p % 3 = 2`; every other
pattern of the enumeration is used unchanged on every pass. -/
theorem all_pattern_cycles_by_mod3 :
    ∀ p : ℕ,
      select_mode_wfs .all p =
        (if p % 3 = 0 then .random else if p % 3 = 1 then .zeroes else .ones) ∧
      select_mode_fmt .all p =
        (if p % 3 = 0 then .random else if p % 3 = 1 then .zeroes else .ones) ∧
      select_mode_wfs .all 0 = .random ∧
      select_mode_fmt .all 0 = .random ∧
      (select_mode_wfs .random p = .random ∧ select_mode_fmt .random p = .random) ∧
      (select_mode_wfs .zeroes p = .zeroes ∧ select_mode_fmt .zeroes p = .zeroes) ∧
      (select_mode_wfs .ones p = .ones ∧ select_mode_fmt .ones p = .ones) ∧
      (select_mode_wfs .ticks p = .ticks ∧ select_mode_fmt .ticks p = .ticks) ∧
      (select_mode_wfs .haha p = .haha ∧ select_mode_fmt .haha p = .haha) := by
  intro p
  have h3 : p % 3 = 0 ∨ p % 3 = 1 ∨ p % 3 = 2 := by omega
  refine ⟨?_, ?_, rfl, rfl, ⟨rfl, rfl⟩, ⟨rfl, rfl⟩, ⟨rfl, rfl⟩, ⟨rfl, rfl⟩, ⟨rfl, rfl⟩⟩ <;>
  · rcases Nat.eq_zero_or_pos p with hp | hp
    · subst hp; rfl
    · have hp0 : p ≠ 0 := by omega
      rcases h3 with h | h | h <;>
        simp [select_mode_wfs, select_mode_fmt, hp0, h]

/-- C5: with no benchmark measurement available (always the case, since
`benchmark_write_speed` is commented out), `estimate_operation_time`
returns `estimated_seconds = T + min 30 (0.1 * T)` with
`T = (data_size / S) * passes + 2 * passes`, `S` the strictly positive
per-platform heuristic speed, and a completion timestamp equal to the
current time plus `estimated_seconds`. -/
theorem estimate_operation_time_formula :
    ∀ (system : OSKind) (now data_size : ℚ) (passes : ℕ),
      0 < estimate_write_speed system ∧
      (estimate_operation_time system now data_size passes).estimated_speed =
        estimate_write_speed system ∧
      (estimate_operation_time system now data_size passes).estimated_seconds =
        (data_size / estimate_write_speed system * passes + 2 * passes) +
          min 30 ((1 / 10) * (data_size / estimate_write_speed system * passes + 2 * passes)) ∧
      (estimate_operation_time system now data_size passes).completion_time =
        now + (estimate_operation_time system now data_size passes).estimated_seconds := by
  intro system now data_size passes
  refine ⟨?_, rfl, ?_, rfl⟩
  · cases system <;> norm_num [estimate_write_speed]
  · show _ + min 30 _ = _ + min 30 _
    ring_nf

end SecureWipe
